import Mathlib

deriving instance DecidableEq for Except

/-!
# Verification of the enumerated-value codec (diesel-derive-enum)

The repository's visible sources are test fixtures exercising a cross-backend
enumerated-value codec: a Variant Registry with a deterministic name
transformation, three backend encoding strategies (native-enum, string-enum,
constrained-text), a Nullable Adapter, and a Type Identity Provider.  The codec
itself is generated by a derive macro that is not part of the visible sources,
so the definitions below model it from the specification, constrained by the
concrete fixtures (`MyEnum { Foo, Bar, BazQuxx }` with wire-names
`foo`, `bar`, `baz_quxx`, and the nullable / non-nullable round-trip tests).
-/

namespace DbEnum

/-- Modelled from the spec: the error taxonomy of §7.  `duplicateWireName` is
construction-time and fatal, `unknownVariant` is a name-lookup miss, and
`decodeError` signals a wire value outside the registry (schema drift). -/
inductive CodecError
  | duplicateWireName (name : String)
  | unknownVariant (name : String)
  | decodeError (wire : String)
deriving DecidableEq, Repr

/-- Lower-cases a tail character, inserting a word separator before an
upper-case letter. -/
def snakeTail : List Char → List Char
  | [] => []
  | c :: cs => (if c.isUpper then ['_', c.toLower] else [c]) ++ snakeTail cs

/-- Modelled from the spec: the default variant-name transformation of the
missing derive macro, a deterministic case/word-separator rule that renders the
camel-case symbolic name in snake case (the fixtures show
`BazQuxx ↦ baz_quxx`). -/
def snakeCase (s : String) : String :=
  match s.data with
  | [] => ""
  | c :: cs => ⟨c.toLower :: snakeTail cs⟩

/-- One configured variant: its symbolic (host-language) name and an optional
explicit wire-name override. -/
structure VariantSpec where
  symbolic : String
  override : Option String
deriving DecidableEq, Repr

/-- Modelled from the spec: the Variant Name Mapping — the explicit override
when supplied, otherwise the default transformation of the symbolic name. -/
def wireNameOf (v : VariantSpec) : String :=
  match v.override with
  | some w => w
  | none => snakeCase v.symbolic

/-- Modelled from the spec: the Variant Registry — the closed, ordered set of
variants of one enumerated type, tagged with the type's name. -/
structure Registry where
  typeName : String
  entries : List VariantSpec
deriving DecidableEq, Repr

/-- The registry's wire-names, in declared order. -/
def Registry.wireNames (r : Registry) : List String :=
  r.entries.map wireNameOf

/-- Returns some element of the list that also occurs later in it, if any. -/
def firstDup : List String → Option String
  | [] => none
  | n :: ns => if n ∈ ns then some n else firstDup ns

/-- Modelled from the spec: the registry constructor of §6 — builds a Variant
Registry from an ordered list of (symbolic name, optional override) pairs,
failing at construction time when two entries collapse to one wire-name. -/
def mkRegistry (typeName : String) (entries : List VariantSpec) :
    Except CodecError Registry :=
  match firstDup (entries.map wireNameOf) with
  | some d => .error (.duplicateWireName d)
  | none => .ok ⟨typeName, entries⟩

/-- Modelled from the spec: `name_of` of §4.1 — always succeeds on the closed
set, returning the variant's wire-name. -/
def Registry.name_of (_r : Registry) (v : VariantSpec) : String :=
  wireNameOf v

/-- Modelled from the spec: `variant_of` of §4.1 — looks a candidate name up
among the registered wire-names, failing with `unknownVariant` on a miss. -/
def Registry.variant_of (r : Registry) (n : String) : Except CodecError VariantSpec :=
  match r.entries.find? (fun e => wireNameOf e == n) with
  | some e => .ok e
  | none => .error (.unknownVariant n)

/-- The three backend families of §4.2–§4.4. -/
inductive StrategyKind
  | nativeEnum
  | stringEnum
  | constrainedText
deriving DecidableEq, Repr

/-- Modelled from the spec: `encode` of every backend strategy — the variant's
wire-name (a native tag for the native-enum backend, a string literal
otherwise; the fixtures declare the native labels as exactly the wire-names).
Never fails for a valid variant. -/
def strategyEncode (_k : StrategyKind) (r : Registry) (v : VariantSpec) : String :=
  r.name_of v

/-- Modelled from the spec: `decode` of every backend strategy — delegates to
`variant_of` and reports a miss as `decodeError` (schema/registry drift),
never a default or guessed variant. -/
def strategyDecode (_k : StrategyKind) (r : Registry) (w : String) :
    Except CodecError VariantSpec :=
  match r.variant_of w with
  | .ok v => .ok v
  | .error _ => .error (.decodeError w)

/-- The Nullable Envelope of §3: a sum of absent and present(Variant). -/
inductive Envelope
  | absent
  | present (v : VariantSpec)
deriving DecidableEq, Repr

/-- An envelope is valid for a registry when a present variant is registered. -/
def Envelope.valid (r : Registry) : Envelope → Bool
  | .absent => true
  | .present v => decide (v ∈ r.entries)

/-- Modelled from the spec: Nullable Adapter encode of §4.5 — absent maps to
the backend null marker, present(v) delegates to the wrapped strategy. -/
def nullEncode (k : StrategyKind) (r : Registry) : Envelope → Option String
  | .absent => none
  | .present v => some (strategyEncode k r v)

/-- Modelled from the spec: Nullable Adapter decode of §4.5 — the null marker
maps to absent, otherwise delegate and wrap a successful decode in present;
a wrapped decode failure propagates unchanged. -/
def nullDecode (k : StrategyKind) (r : Registry) : Option String → Except CodecError Envelope
  | none => .ok .absent
  | some w =>
    match strategyDecode k r w with
    | .ok v => .ok (.present v)
    | .error e => .error e

/-- Modelled from the spec: the Type Identity Token of §4.6 — a stable,
comparable identity for one enumerated type as mapped by one strategy,
independent of process memory addresses. -/
structure IdentityToken where
  typeName : String
  strategy : StrategyKind
deriving DecidableEq, Repr

/-- Modelled from the spec: the Type Identity Provider — computes the token of
a (registry, strategy) pair deterministically. -/
def identityToken (r : Registry) (k : StrategyKind) : IdentityToken :=
  ⟨r.typeName, k⟩

/-- A row of the `test_nullable` fixture with a nullable enum column. -/
structure NullableRow where
  id : Int
  my_enum : Envelope
deriving DecidableEq, Repr

/-- A row of the `test_nullable` fixture written through the non-nullable
struct (`MaybeNullable`). -/
structure PlainRow where
  id : Int
  my_enum : VariantSpec
deriving DecidableEq, Repr

/-- Modelled from the spec: the write path of the external query layer —
each submitted row's enum column is encoded through the nullable strategy and
the reported count equals the number of rows written. -/
def insertNullable (k : StrategyKind) (r : Registry) (rows : List NullableRow) :
    List (Int × Option String) × Nat :=
  (rows.map (fun row => (row.id, nullEncode k r row.my_enum)), rows.length)

/-- Modelled from the spec: the read path — each stored wire value is decoded
through the nullable strategy; a decode failure fails the whole read rather
than skipping the row. -/
def loadNullable (k : StrategyKind) (r : Registry) :
    List (Int × Option String) → Except CodecError (List NullableRow)
  | [] => .ok []
  | p :: rest =>
    match nullDecode k r p.2 with
    | .ok e =>
      match loadNullable k r rest with
      | .ok rows => .ok (⟨p.1, e⟩ :: rows)
      | .error err => .error err
    | .error err => .error err

/-- Modelled from the spec: the write path for the non-nullable struct. -/
def insertPlain (k : StrategyKind) (r : Registry) (rows : List PlainRow) :
    List (Int × String) × Nat :=
  (rows.map (fun row => (row.id, strategyEncode k r row.my_enum)), rows.length)

/-- Modelled from the spec: the read path for the non-nullable struct. -/
def loadPlain (k : StrategyKind) (r : Registry) :
    List (Int × String) → Except CodecError (List PlainRow)
  | [] => .ok []
  | p :: rest =>
    match strategyDecode k r p.2 with
    | .ok v =>
      match loadPlain k r rest with
      | .ok rows => .ok (⟨p.1, v⟩ :: rows)
      | .error err => .error err
    | .error err => .error err

/-- `encode` viewed as an operation on the registry state: it returns its
result together with the registry it leaves behind. -/
def encodeOp (k : StrategyKind) (v : VariantSpec) (r : Registry) : String × Registry :=
  (strategyEncode k r v, r)

/-- `decode` viewed as an operation on the registry state. -/
def decodeOp (k : StrategyKind) (w : String) (r : Registry) :
    Except CodecError VariantSpec × Registry :=
  (strategyDecode k r w, r)

/-- `name_of` viewed as an operation on the registry state. -/
def nameOfOp (v : VariantSpec) (r : Registry) : String × Registry :=
  (r.name_of v, r)

/-- `variant_of` viewed as an operation on the registry state. -/
def variantOfOp (n : String) (r : Registry) :
    Except CodecError VariantSpec × Registry :=
  (r.variant_of n, r)

/-- The `MyEnum` fixture of the tests: variants `Foo`, `Bar`, `BazQuxx`,
no per-variant overrides. -/
def myEnumEntries : List VariantSpec :=
  [⟨"Foo", none⟩, ⟨"Bar", none⟩, ⟨"BazQuxx", none⟩]

/-- The registry of the `MyEnum` fixture. -/
def myEnumRegistry : Registry :=
  ⟨"MyEnum", myEnumEntries⟩

/-- The `MyEnum` fixture as described by the end-to-end scenario: `BazQuxx`
carries an explicit wire-name override `baz_quxx`. -/
def overrideEntries : List VariantSpec :=
  [⟨"Foo", none⟩, ⟨"Bar", none⟩, ⟨"BazQuxx", some "baz_quxx"⟩]

/-- The registry of the override scenario. -/
def overrideRegistry : Registry :=
  ⟨"MyEnum", overrideEntries⟩

/-- A second enumerated type, used to compare identity tokens. -/
def otherRegistry : Registry :=
  ⟨"OtherEnum", [⟨"Alpha", none⟩, ⟨"Beta", none⟩]⟩

/-- A configuration whose two entries collapse to one wire-name. -/
def dupEntries : List VariantSpec :=
  [⟨"A", some "x"⟩, ⟨"B", some "x"⟩]

/-- The two rows of the nullable round-trip test. -/
def scenarioNullableRows : List NullableRow :=
  [⟨1, .absent⟩, ⟨2, .present ⟨"Bar", none⟩⟩]

/-- The two rows of the non-nullable round-trip test. -/
def scenarioPlainRows : List PlainRow :=
  [⟨1, ⟨"Foo", none⟩⟩, ⟨2, ⟨"BazQuxx", some "baz_quxx"⟩⟩]

/-! ## Helper lemmas -/

/-- Under injective wire-naming, looking a registered variant's wire-name up
finds that variant itself. -/
theorem find?_wireName_self {l : List VariantSpec} {v : VariantSpec}
    (hnd : (l.map wireNameOf).Nodup) (hv : v ∈ l) :
    l.find? (fun e => wireNameOf e == wireNameOf v) = some v := by
  induction l with
  | nil => cases hv
  | cons a l ih =>
    rw [List.map_cons, List.nodup_cons] at hnd
    rcases List.mem_cons.mp hv with rfl | hv2
    · exact List.find?_cons_of_pos _ (by simp)
    · have hne : ¬ ((fun e => wireNameOf e == wireNameOf v) a = true) := by
        intro h
        rw [beq_iff_eq] at h
        exact hnd.1 (h ▸ List.mem_map_of_mem wireNameOf hv2)
      have hstep : List.find? (fun e => wireNameOf e == wireNameOf v) (a :: l) =
          List.find? (fun e => wireNameOf e == wireNameOf v) l :=
        List.find?_cons_of_neg l hne
      exact hstep.trans (ih hnd.2 hv2)

/-- Under injective wire-naming, `variant_of` inverts `name_of` on every
registered variant. -/
theorem variant_of_name_of {r : Registry} {v : VariantSpec}
    (hnd : r.wireNames.Nodup) (hv : v ∈ r.entries) :
    r.variant_of (r.name_of v) = .ok v := by
  unfold Registry.variant_of Registry.name_of
  rw [find?_wireName_self hnd hv]

/-- `variant_of` misses exactly the names outside the registered wire-names. -/
theorem variant_of_not_mem {r : Registry} {n : String} (h : n ∉ r.wireNames) :
    r.variant_of n = .error (.unknownVariant n) := by
  unfold Registry.variant_of
  have hfind : r.entries.find? (fun e => wireNameOf e == n) = none := by
    rw [List.find?_eq_none]
    intro x hx hbe
    rw [beq_iff_eq] at hbe
    exact h (hbe ▸ List.mem_map_of_mem wireNameOf hx)
  rw [hfind]

/-- `firstDup` returns `none` exactly on duplicate-free lists. -/
theorem firstDup_eq_none_iff {l : List String} : firstDup l = none ↔ l.Nodup := by
  induction l with
  | nil => simp [firstDup]
  | cons n ns ih =>
    by_cases h : n ∈ ns
    · simp [firstDup, h]
    · simp [firstDup, h, ih]

/-- Under injective wire-naming, every strategy's decode inverts its encode on
registered variants. -/
theorem decode_encode {k : StrategyKind} {r : Registry} {v : VariantSpec}
    (hnd : r.wireNames.Nodup) (hv : v ∈ r.entries) :
    strategyDecode k r (strategyEncode k r v) = .ok v := by
  unfold strategyDecode strategyEncode
  rw [variant_of_name_of hnd hv]

/-! ## Claims -/

/-- C1: For every backend encoding strategy (native-enum, string-enum,
constrained-text) and every variant registered in a registry with injective
wire-naming — which construction guarantees — decoding the encoding of the
variant yields the variant back: decode(encode(v)) = ok v. -/
theorem strategy_round_trip (k : StrategyKind) (r : Registry) (v : VariantSpec)
    (hnd : r.wireNames.Nodup) (hv : v ∈ r.entries) :
    strategyDecode k r (strategyEncode k r v) = .ok v :=
  decode_encode hnd hv

/-- Witness for C1: the MyEnum fixture, variant Foo, native-enum strategy. -/
theorem strategy_round_trip_witness :
    myEnumRegistry.wireNames.Nodup ∧
    strategyDecode .nativeEnum myEnumRegistry
      (strategyEncode .nativeEnum myEnumRegistry ⟨"Foo", none⟩) = .ok ⟨"Foo", none⟩ :=
  ⟨by decide,
   strategy_round_trip .nativeEnum myEnumRegistry ⟨"Foo", none⟩ (by decide) (by decide)⟩

/-- C2: For every wrapped strategy and every valid nullable envelope the
Nullable Adapter round-trips exactly; absent encodes to the backend null
marker and decodes back to absent, and present(v) delegates to the wrapped
strategy. -/
theorem nullable_round_trip (k : StrategyKind) (r : Registry) (e : Envelope)
    (hnd : r.wireNames.Nodup) (he : e.valid r = true) :
    nullDecode k r (nullEncode k r e) = .ok e ∧
    nullEncode k r .absent = none ∧
    nullDecode k r none = .ok .absent ∧
    ∀ u : VariantSpec, nullEncode k r (.present u) = some (strategyEncode k r u) := by
  refine ⟨?_, rfl, rfl, fun u => rfl⟩
  cases e with
  | absent => rfl
  | present v =>
    have hv : v ∈ r.entries := of_decide_eq_true he
    show nullDecode k r (some (strategyEncode k r v)) = .ok (.present v)
    simp only [nullDecode]
    rw [decode_encode hnd hv]

/-- Witness for C2: the override fixture, envelope present(BazQuxx),
string-enum strategy. -/
theorem nullable_round_trip_witness :
    overrideRegistry.wireNames.Nodup ∧
    nullDecode .stringEnum overrideRegistry
      (nullEncode .stringEnum overrideRegistry (.present ⟨"BazQuxx", some "baz_quxx"⟩)) =
      .ok (.present ⟨"BazQuxx", some "baz_quxx"⟩) :=
  ⟨by decide,
   (nullable_round_trip .stringEnum overrideRegistry (.present ⟨"BazQuxx", some "baz_quxx"⟩)
      (by decide) (by decide)).1⟩

/-- C3: For every strategy, decoding a wire value outside the registry's
wire-names yields decodeError — never a default or guessed variant — and a
read containing such a value fails as a whole rather than skipping the row. -/
theorem decode_drift_fatal (k : StrategyKind) (r : Registry) (w : String)
    (h : w ∉ r.wireNames) :
    strategyDecode k r w = .error (.decodeError w) ∧
    ∀ (i : Int) (rest : List (Int × String)),
      loadPlain k r ((i, w) :: rest) = .error (.decodeError w) := by
  have hdec : strategyDecode k r w = .error (.decodeError w) := by
    unfold strategyDecode
    rw [variant_of_not_mem h]
  refine ⟨hdec, fun i rest => ?_⟩
  unfold loadPlain
  rw [hdec]

/-- Witness for C3: the wire value "quux" is not a MyEnum wire-name, and
decoding it fails the read. -/
theorem decode_drift_fatal_witness :
    "quux" ∉ myEnumRegistry.wireNames ∧
    strategyDecode .stringEnum myEnumRegistry "quux" = .error (.decodeError "quux") ∧
    loadPlain .stringEnum myEnumRegistry [(7, "quux")] = .error (.decodeError "quux") :=
  ⟨by decide,
   (decode_drift_fatal .stringEnum myEnumRegistry "quux" (by decide)).1,
   (decode_drift_fatal .stringEnum myEnumRegistry "quux" (by decide)).2 7 []⟩

/-- C4: Registry construction succeeds exactly when the configured entries
produce pairwise-distinct wire-names after transformation/override, and
otherwise fails — at construction time — with duplicateWireName. -/
theorem registry_construction_contract (tn : String) (es : List VariantSpec) :
    (mkRegistry tn es = .ok ⟨tn, es⟩ ↔ (es.map wireNameOf).Nodup) ∧
    (¬ (es.map wireNameOf).Nodup →
      ∃ d, mkRegistry tn es = .error (.duplicateWireName d)) := by
  constructor
  · constructor
    · intro hok
      by_contra hnd
      have hne : firstDup (es.map wireNameOf) ≠ none := fun hn =>
        hnd (firstDup_eq_none_iff.mp hn)
      obtain ⟨d, hd⟩ := Option.ne_none_iff_exists'.mp hne
      unfold mkRegistry at hok
      rw [hd] at hok
      cases hok
    · intro hnd
      unfold mkRegistry
      rw [firstDup_eq_none_iff.mpr hnd]
  · intro hnd
    have hne : firstDup (es.map wireNameOf) ≠ none := fun hn =>
      hnd (firstDup_eq_none_iff.mp hn)
    obtain ⟨d, hd⟩ := Option.ne_none_iff_exists'.mp hne
    refine ⟨d, ?_⟩
    unfold mkRegistry
    rw [hd]

/-- Witness for C4: the MyEnum fixture constructs, the colliding configuration
is rejected with duplicateWireName. -/
theorem registry_construction_contract_witness :
    mkRegistry "MyEnum" myEnumEntries = .ok ⟨"MyEnum", myEnumEntries⟩ ∧
    ∃ d, mkRegistry "Dup" dupEntries = .error (.duplicateWireName d) :=
  ⟨(registry_construction_contract "MyEnum" myEnumEntries).1.mpr (by decide),
   (registry_construction_contract "Dup" dupEntries).2 (by decide)⟩

/-- C5: Identity tokens computed for the same (registry, strategy) pair are
equal, and tokens for two different enumerated types, or for the same type
under different strategies, are unequal. -/
theorem identity_token_contract (r₁ r₂ : Registry) (k₁ k₂ : StrategyKind) :
    (r₁ = r₂ → k₁ = k₂ → identityToken r₁ k₁ = identityToken r₂ k₂) ∧
    (r₁.typeName ≠ r₂.typeName → identityToken r₁ k₁ ≠ identityToken r₂ k₂) ∧
    (k₁ ≠ k₂ → identityToken r₁ k₁ ≠ identityToken r₂ k₂) := by
  refine ⟨fun hr hk => by rw [hr, hk], fun hne heq => ?_, fun hne heq => ?_⟩
  · exact hne (congrArg IdentityToken.typeName heq)
  · exact hne (congrArg IdentityToken.strategy heq)

/-- Witness for C5: MyEnum vs OtherEnum under one strategy, and MyEnum under
two strategies. -/
theorem identity_token_contract_witness :
    identityToken myEnumRegistry .stringEnum ≠ identityToken otherRegistry .stringEnum ∧
    identityToken myEnumRegistry .stringEnum ≠ identityToken myEnumRegistry .nativeEnum :=
  ⟨(identity_token_contract myEnumRegistry otherRegistry .stringEnum .stringEnum).2.1
      (by decide),
   (identity_token_contract myEnumRegistry myEnumRegistry .stringEnum .nativeEnum).2.2
      (by decide)⟩

/-- C6: name_of yields a registered wire-name for every variant of the closed
set, and variant_of fails with unknownVariant exactly when the supplied name
matches none of the registered wire-names under the same rule. -/
theorem registry_lookup_contract (r : Registry) (n : String) :
    (r.variant_of n = .error (.unknownVariant n) ↔ n ∉ r.wireNames) ∧
    (∀ v ∈ r.entries, r.name_of v ∈ r.wireNames) := by
  constructor
  · constructor
    · intro herr hmem
      obtain ⟨e, he, hwn⟩ := List.mem_map.mp hmem
      have hsome : (r.entries.find? (fun a => wireNameOf a == n)).isSome :=
        List.find?_isSome.mpr ⟨e, he, by simp [hwn]⟩
      obtain ⟨x, hx⟩ := Option.isSome_iff_exists.mp hsome
      unfold Registry.variant_of at herr
      rw [hx] at herr
      cases herr
    · exact variant_of_not_mem
  · intro v hv
    exact List.mem_map_of_mem wireNameOf hv

/-- Witness for C6: "frobz" is not a MyEnum wire-name, so variant_of misses. -/
theorem registry_lookup_contract_witness :
    myEnumRegistry.variant_of "frobz" = .error (.unknownVariant "frobz") :=
  (registry_lookup_contract myEnumRegistry "frobz").1.mpr (by decide)

/-- C7: The end-to-end scenario over {Foo, Bar, BazQuxx} with BazQuxx
overridden to baz_quxx: inserting {id 1, absent} and {id 2, present Bar}
through the nullable string-enum strategy reports a count equal to the rows
submitted and reads back exactly those rows; inserting {id 1, Foo} and
{id 2, BazQuxx} through the non-nullable strategy likewise reports the full
count and round-trips losslessly. -/
theorem end_to_end_scenario :
    (insertNullable .stringEnum overrideRegistry scenarioNullableRows).2 =
      scenarioNullableRows.length ∧
    loadNullable .stringEnum overrideRegistry
      (insertNullable .stringEnum overrideRegistry scenarioNullableRows).1 =
      .ok scenarioNullableRows ∧
    (insertPlain .stringEnum overrideRegistry scenarioPlainRows).2 =
      scenarioPlainRows.length ∧
    loadPlain .stringEnum overrideRegistry
      (insertPlain .stringEnum overrideRegistry scenarioPlainRows).1 =
      .ok scenarioPlainRows := by
  decide

/-- C8: With no per-variant override, the default transformation snake-cases
the camel-case symbolic names: the MyEnum fixture's wire-names are exactly
foo, bar, baz_quxx, and the registry constructs. -/
theorem default_snake_case_naming :
    snakeCase "Foo" = "foo" ∧
    snakeCase "Bar" = "bar" ∧
    snakeCase "BazQuxx" = "baz_quxx" ∧
    mkRegistry "MyEnum" myEnumEntries = .ok myEnumRegistry ∧
    myEnumRegistry.wireNames = ["foo", "bar", "baz_quxx"] := by
  decide

/-- C9: Encoding a bare variant through the base strategy produces the same
wire value as encoding present(v) through the Nullable Adapter, and a value
written by the non-nullable path is read back as present(v) by the nullable
decode path. -/
theorem plain_matches_nullable (k : StrategyKind) (r : Registry) (v : VariantSpec)
    (hnd : r.wireNames.Nodup) (hv : v ∈ r.entries) :
    nullEncode k r (.present v) = some (strategyEncode k r v) ∧
    nullDecode k r (some (strategyEncode k r v)) = .ok (.present v) := by
  refine ⟨rfl, ?_⟩
  simp only [nullDecode]
  rw [decode_encode hnd hv]

/-- Witness for C9: the override fixture, variant Foo, string-enum strategy. -/
theorem plain_matches_nullable_witness :
    overrideRegistry.wireNames.Nodup ∧
    nullDecode .stringEnum overrideRegistry
      (some (strategyEncode .stringEnum overrideRegistry ⟨"Foo", none⟩)) =
      .ok (.present ⟨"Foo", none⟩) :=
  ⟨by decide,
   (plain_matches_nullable .stringEnum overrideRegistry ⟨"Foo", none⟩
      (by decide) (by decide)).2⟩

/-- C10: Every codec operation (encode, decode, name_of, variant_of), viewed
as an operation on the registry state, leaves the registry — its variant set
and wire-name mapping — unchanged, and a second invocation on the registry
the first one left behind returns the same result. -/
theorem codec_ops_pure (k : StrategyKind) (r : Registry) (v : VariantSpec) (w n : String) :
    ((encodeOp k v r).2 = r ∧ (encodeOp k v (encodeOp k v r).2).1 = (encodeOp k v r).1) ∧
    ((decodeOp k w r).2 = r ∧ (decodeOp k w (decodeOp k w r).2).1 = (decodeOp k w r).1) ∧
    ((nameOfOp v r).2 = r ∧ (nameOfOp v (nameOfOp v r).2).1 = (nameOfOp v r).1) ∧
    ((variantOfOp n r).2 = r ∧
      (variantOfOp n (variantOfOp n r).2).1 = (variantOfOp n r).1) ∧
    ((decodeOp k w r).2).entries = r.entries ∧
    ((decodeOp k w r).2).wireNames = r.wireNames :=
  ⟨⟨rfl, rfl⟩, ⟨rfl, rfl⟩, ⟨rfl, rfl⟩, ⟨rfl, rfl⟩, rfl, rfl⟩

end DbEnum
